import Mathlib

/- Verification development for the batch-processing core of gallery-dl
   (src/gallery_dl/__init__.py): the input-file directive parser
   `parse_inputfile`, the `progress` wrapper, and the per-url dispatch
   loop of `main`, together with a model of the layered configuration
   store (`config` module) that the loop relies on. -/

namespace Gallerydl

/-- JSON values, restricted to the fragment that the directive files in
this development exercise: `null`, booleans, integers, and simple quoted
strings without escape sequences. -/
inductive JValue where
  | null
  | bool (b : Bool)
  | num (n : Int)
  | str (s : String)

deriving instance DecidableEq for JValue

/-- A parsed configuration directive: exactly the `(section, key, value)`
triple appended to `gconf`/`lconf` by `parse_inputfile` (line 93). -/
abbrev Directive := String × String × JValue

/-- Whitespace as recognised by Python `str.strip` (ASCII subset, which is
what the input lines in this development contain). -/
def isSpaceChar (c : Char) : Bool :=
  c == ' ' || c == '\t' || c == '\n' || c == '\r' || c == '\x0b' || c == '\x0c'

/-- Python `str.strip` on a character list: drop whitespace at both ends. -/
def strip (cs : List Char) : List Char :=
  ((cs.dropWhile isSpaceChar).reverse.dropWhile isSpaceChar).reverse

/-- Python `str.strip` on strings: `line.strip()` in `parse_inputfile`. -/
def pyStrip (s : String) : String := String.mk (strip s.data)

/-- Python `str.partition(sep)` restricted to the found/not-found shape:
split on the FIRST occurrence of `sep`, `none` when `sep` is absent. -/
def partitionCharList : List Char → Char → Option (List Char × List Char)
  | [], _ => none
  | c :: cs, sep =>
    if c = sep then some ([], cs)
    else
      match partitionCharList cs sep with
      | none => none
      | some (a, b) => some (c :: a, b)

/-- Python `str.rpartition(sep)`: split on the LAST occurrence of `sep`. -/
def rpartitionCharList (cs : List Char) (sep : Char) :
    Option (List Char × List Char) :=
  match partitionCharList cs.reverse sep with
  | none => none
  | some (a, b) => some (b.reverse, a.reverse)

/-- Decimal digit accumulation for the integer case of `json_loads`. -/
def digitVal (c : Char) : Nat := c.toNat - 48

/-- Parse a non-empty all-digit character list as a natural number. -/
def parseNatChars (cs : List Char) : Option Nat :=
  if cs ≠ [] ∧ cs.all Char.isDigit = true then
    some (cs.foldl (fun a c => a * 10 + digitVal c) 0)
  else none

/-- Parse an optionally-negated decimal integer. -/
def parseIntChars : List Char → Option Int
  | '-' :: cs => (parseNatChars cs).map (fun n => -(n : Int))
  | cs => (parseNatChars cs).map (fun n => (n : Int))

/-- Modelled from the spec: `json.loads` (Python standard library, external
to this repository), restricted to the JSON fragment used by the directive
lines of this development: `null`, booleans, decimal integers, and simple
quoted strings without escapes.  Any other input fails to parse, which is
the behaviour the parser's error path depends on. -/
def json_loads (s : String) : Option JValue :=
  let cs := s.data
  if cs = "null".data then some JValue.null
  else if cs = "true".data then some (JValue.bool true)
  else if cs = "false".data then some (JValue.bool false)
  else if 2 ≤ cs.length ∧ cs.head? = some '"' ∧ cs.getLast? = some '"' ∧
      ((cs.drop 1).dropLast.all fun c => !(c == '"') && !(c == '\\')) = true then
    some (JValue.str (String.mk ((cs.drop 1).dropLast)))
  else
    (parseIntChars cs).map JValue.num

/-- The `util.ExtendedUrl` record as constructed by `parse_inputfile` (line 98) and
consumed by `main` (lines 295-299): a target value with its pending global
and local directive lists. -/
structure ExtendedUrl where
  value : String
  gconfig : List Directive
  lconfig : List Directive

deriving instance DecidableEq for ExtendedUrl

/-- An item yielded by `parse_inputfile`: either a plain url string
(line 102) or an `ExtendedUrl` (line 98). -/
inductive UrlItem where
  | url (u : String)
  | extended (e : ExtendedUrl)

deriving instance DecidableEq for UrlItem

/-- A `log.warning` call made by `parse_inputfile`: either the missing-`=`
warning of line 83 or the bad-JSON warning of line 89, each carrying the
string interpolated into the message. -/
inductive ParseWarning where
  | invalidPair (line : String)
  | unparsableValue (value : String)

deriving instance DecidableEq for ParseWarning

instance decEqDirPair : DecidableEq (List Directive × List Directive) :=
  fun a b => instDecidableEqProd a b

instance decEqWarnDir :
    DecidableEq (List ParseWarning × List Directive × List Directive) :=
  fun a b => instDecidableEqProd a b

instance decEqParseResult :
    DecidableEq (List UrlItem × List ParseWarning × List Directive × List Directive) :=
  fun a b => instDecidableEqProd a b

/-- Lines 74-79 of `parse_inputfile`: given the characters after the
leading `-`, decide the scope (`true` = global, second character `G`
stripped) and return the remaining characters. -/
def splitScope : List Char → Bool × List Char
  | [] => (false, [])
  | c :: cs => if c = 'G' then (true, cs) else (false, c :: cs)

/-- Lines 92-93 of `parse_inputfile`: strip the raw key and split it on its
LAST `:` into section and key; with no colon the section defaults to
`"__global__"` and the key is the stripped raw key. -/
def sectionKeySplit (rawKey : List Char) (v : JValue) : Directive :=
  match rpartitionCharList (strip rawKey) ':' with
  | some (sec, k) => (String.mk sec, String.mk k, v)
  | none => ("__global__", String.mk (strip rawKey), v)

/-- One iteration of the `parse_inputfile` loop (lines 65-102): classify a
single input line and return the items emitted, the warnings logged, and
the updated pending global/local directive buffers. -/
def parse_line (l : String) (gconf lconf : List Directive) :
    List UrlItem × List ParseWarning × List Directive × List Directive :=
  match (pyStrip l).data with
  | [] => ([], [], gconf, lconf)
  | c :: cs =>
    if c = '#' then ([], [], gconf, lconf)
    else if c = '-' then
      match partitionCharList (splitScope cs).2 '=' with
      | none =>
        ([], [ParseWarning.invalidPair (String.mk (splitScope cs).2)], gconf, lconf)
      | some (rawKey, rawValue) =>
        match json_loads (String.mk (strip rawValue)) with
        | none =>
          ([], [ParseWarning.unparsableValue (String.mk rawValue)], gconf, lconf)
        | some v =>
          if (splitScope cs).1 then
            ([], [], gconf ++ [sectionKeySplit rawKey v], lconf)
          else ([], [], gconf, lconf ++ [sectionKeySplit rawKey v])
    else
      if gconf = [] ∧ lconf = [] then
        ([UrlItem.url (pyStrip l)], [], gconf, lconf)
      else
        ([UrlItem.extended ⟨pyStrip l, gconf, lconf⟩], [], [], [])

/-- The `parse_inputfile` loop over the remaining lines, carrying the
pending buffers `gconf`/`lconf`; returns the yielded items and the logged
warnings, in input order.  Pending directives left at the end of input are
dropped (line 65 simply ends). -/
def parse_go : List String → List Directive → List Directive →
    List UrlItem × List ParseWarning
  | [], _, _ => ([], [])
  | l :: rest, gconf, lconf =>
    ((parse_line l gconf lconf).1 ++
       (parse_go rest (parse_line l gconf lconf).2.2.1
         (parse_line l gconf lconf).2.2.2).1,
     (parse_line l gconf lconf).2.1 ++
       (parse_go rest (parse_line l gconf lconf).2.2.1
         (parse_line l gconf lconf).2.2.2).2)

/-- Embedding of `parse_inputfile(file, log)` (lines 35-102) over a list of input lines:
both buffers start empty (lines 62-63). -/
def parse_inputfile (lines : List String) : List UrlItem × List ParseWarning :=
  parse_go lines [] []

/-- Whether a line is one that emits nothing when parsed: blank, comment,
or a directive that parses without a warning. -/
def directive_ok (cs : List Char) : Bool :=
  match partitionCharList (splitScope cs).2 '=' with
  | none => false
  | some rv => (json_loads (String.mk (strip rv.2))).isSome

/-- A line that yields no item and no warning: blank, comment, or a
well-formed directive. -/
def trailingSilent (l : String) : Bool :=
  match (pyStrip l).data with
  | [] => true
  | c :: cs => if c = '#' then true else if c = '-' then directive_ok cs else false

/-- Modelled from the spec: rendering of the progress template
(`str.format_map`, Python standard library), restricted to the three
placeholder names the progress format uses. -/
def format_map (fmt : String) (current total : Nat) (url : String) : String :=
  ((fmt.replace "{current}" (toString current)).replace "{total}"
    (toString total)).replace "{url}" url

/-- Lines 24-27 of `progress`: the effective format string; `none` models
the Python value `True`. -/
def progress_pformat : Option String → String
  | none => "[{current}/{total}] {url}\n"
  | some f => f ++ "\n"

/-- The loop of `progress` (lines 29-32): for each url, write one rendered
line to stderr and yield the url unchanged; modelled as the list of
(written line, yielded item) pairs, with `current` counting up from 1. -/
def progress_go (fmt : String) (total : Nat) : Nat → List String → List (String × String)
  | _, [] => []
  | current, u :: us =>
    (format_map fmt current total u, u) :: progress_go fmt total (current + 1) us

/-- Embedding of `progress(urls, pformat)` (lines 22-32): the total is the length of the
already-materialised url list, taken once before the loop. -/
def progress (urls : List String) (pformat : Option String) :
    List (String × String) :=
  progress_go (progress_pformat pformat) urls.length 1 urls

/-- Modelled from the spec (§4.2): the ConfigStore of the `config` module
(part of the repository but not under src/), a layered store mapping
(section, key) to a value; `set` shadows, `get` reads the most recent
write, `unset` removes a path entirely. -/
abbrev Config := List ((String × String) × JValue)

/-- Modelled from the spec: `config.get` — the currently visible value of a
path, or `none` when the path is absent. -/
def Config.get : Config → String → String → Option JValue
  | [], _, _ => none
  | e :: rest, s, k => if e.1 = (s, k) then some e.2 else Config.get rest s k

/-- Modelled from the spec: `config.set` — a permanent write, visible until
overwritten. -/
def Config.set (c : Config) (s k : String) (v : JValue) : Config :=
  ((s, k), v) :: c

/-- Modelled from the spec: deletion of a path (used by guard release for
paths that were absent before the overlay). -/
def Config.unset (c : Config) (s k : String) : Config :=
  c.filter fun e => decide (e.1 ≠ (s, k))

/-- Lines 296-297 of `main`: `config.set(*opts)` for each pending global
directive, in order. -/
def Config.setAll (c : Config) (ds : List Directive) : Config :=
  ds.foldl (fun acc d => Config.set acc d.1 d.2.1 d.2.2) c

/-- One recorded overlay step: the touched path and its previous value
(`none` = the path was absent). -/
abbrev GuardEntry := (String × String) × Option JValue

/-- Modelled from the spec (§4.2): `config.apply` — for each directive in
order, record the touched path with its previous value (or absence), then
write the directive's value; returns the new store and the guard. -/
def Config.applyOverlay : Config → List Directive → Config × List GuardEntry
  | c, [] => (c, [])
  | c, d :: ds =>
    let r := Config.applyOverlay (Config.set c d.1 d.2.1 d.2.2) ds
    (r.1, ((d.1, d.2.1), Config.get c d.1 d.2.1) :: r.2)

/-- Modelled from the spec: undoing one recorded overlay step — restore the
previous value, or delete the path if it was previously absent. -/
def Config.restoreEntry (c : Config) (e : GuardEntry) : Config :=
  match e.2 with
  | none => Config.unset c e.1.1 e.1.2
  | some v => Config.set c e.1.1 e.1.2 v

/-- Modelled from the spec: guard release — undo the recorded steps in
REVERSE order of application. -/
def Config.release (c : Config) : List GuardEntry → Config
  | [] => c
  | e :: g => Config.restoreEntry (Config.release c g) e

/-- The outcomes of `jobtype(url).run()` as seen by `main`'s loop: an
integer status bitmask, the `exception.TerminateExtraction` signal, the
`exception.NoExtractorError` signal, or any other (fatal) error — the
explicit variant the spec (§9) prescribes for the two distinguished
exception types of the repository's `exception` module (not under src/). -/
inductive RunOutcome where
  | completed (bits : Nat)
  | terminateExtraction
  | noExtractorError
  | fatal (msg : String)

deriving instance DecidableEq for RunOutcome

/-- The mutable state of `main`'s loop: the configuration store, the
`retval` aggregate, and the `log.error` lines emitted so far. -/
structure LoopState where
  conf : Config
  retval : Nat
  errors : List String

deriving instance DecidableEq for LoopState

deriving instance DecidableEq for Except

/-- The `log.error` message of line 305, naming the target. -/
def noExtractorMsg (u : String) : String :=
  "No suitable extractor found for " ++ u

/-- The body of `main`'s per-url loop (lines 292-306).  For an
`ExtendedUrl`: apply the global directives permanently, apply the local
overlay, run the job against the overlaid store, and release the overlay on
every exit path (the `with` block) — including when the job outcome is a
propagating fatal error, which is returned together with the store as it is
at the moment the error leaves the step. -/
def runTarget (run : String → Config → RunOutcome) (st : LoopState) :
    UrlItem → Except (String × Config) LoopState
  | UrlItem.url u =>
    match run u st.conf with
    | RunOutcome.completed b => Except.ok ⟨st.conf, st.retval ||| b, st.errors⟩
    | RunOutcome.terminateExtraction => Except.ok st
    | RunOutcome.noExtractorError =>
        Except.ok ⟨st.conf, st.retval ||| 64, st.errors ++ [noExtractorMsg u]⟩
    | RunOutcome.fatal m => Except.error (m, st.conf)
  | UrlItem.extended e =>
    let c1 := Config.setAll st.conf e.gconfig
    let o := Config.applyOverlay c1 e.lconfig
    let c3 := Config.release o.1 o.2
    match run e.value o.1 with
    | RunOutcome.completed b => Except.ok ⟨c3, st.retval ||| b, st.errors⟩
    | RunOutcome.terminateExtraction => Except.ok ⟨c3, st.retval, st.errors⟩
    | RunOutcome.noExtractorError =>
        Except.ok ⟨c3, st.retval ||| 64, st.errors ++ [noExtractorMsg e.value]⟩
    | RunOutcome.fatal m => Except.error (m, c3)

/-- The loop of lines 292-306 over the remaining targets: per-target
failures are classified by `runTarget`; a fatal outcome propagates and
terminates the whole batch. -/
def dispatchLoop (run : String → Config → RunOutcome) :
    LoopState → List UrlItem → Except (String × Config) LoopState
  | st, [] => Except.ok st
  | st, u :: us =>
    match runTarget run st u with
    | Except.ok st2 => dispatchLoop run st2 us
    | Except.error e => Except.error e

/-- Lines 291-307: `retval = 0` followed by the dispatch loop. -/
def main_loop (run : String → Config → RunOutcome) (conf : Config)
    (urls : List UrlItem) : Except (String × Config) LoopState :=
  dispatchLoop run ⟨conf, 0, []⟩ urls

/-- The string `log.error` interpolates for a target (for an `ExtendedUrl`,
`util.__str__` returns its value). -/
def UrlItem.display : UrlItem → String
  | UrlItem.url u => u
  | UrlItem.extended e => e.value

/-- Observational helper: the store against which the job of a target is
constructed and run inside `runTarget`. -/
def jobConfig (st : LoopState) : UrlItem → Config
  | UrlItem.url _ => st.conf
  | UrlItem.extended e =>
    (Config.applyOverlay (Config.setAll st.conf e.gconfig) e.lconfig).1

/-- Observational helper: the store after the per-target step (after the
local overlay, if any, has been released). -/
def postConfig (st : LoopState) : UrlItem → Config
  | UrlItem.url _ => st.conf
  | UrlItem.extended e =>
    let o := Config.applyOverlay (Config.setAll st.conf e.gconfig) e.lconfig
    Config.release o.1 o.2

/-- Fixture job: every target raises a fatal error. -/
def runFatalBoom : String → Config → RunOutcome := fun _ _ => RunOutcome.fatal "boom"

/-- Fixture job: every target raises `TerminateExtraction`. -/
def runAllTerminate : String → Config → RunOutcome :=
  fun _ _ => RunOutcome.terminateExtraction

/-- Fixture job: every target raises `NoExtractorError`. -/
def runAllNoExtractor : String → Config → RunOutcome :=
  fun _ _ => RunOutcome.noExtractorError

/-- Fixture job: `run()` returns 64 for the target "b" and 0 otherwise. -/
def runBits64OnB : String → Config → RunOutcome :=
  fun u _ => RunOutcome.completed (if u = "b" then 64 else 0)

/-! Helper lemmas -/

theorem Config.get_set (c : Config) (s k : String) (v : JValue) (s' k' : String) :
    Config.get (Config.set c s k v) s' k' =
      if (s, k) = (s', k') then some v else Config.get c s' k' := by
  simp [Config.set, Config.get]

theorem Config.get_unset (c : Config) (s k s' k' : String) :
    Config.get (Config.unset c s k) s' k' =
      if (s, k) = (s', k') then none else Config.get c s' k' := by
  induction c with
  | nil => simp [Config.unset, Config.get]
  | cons e rest ih =>
    by_cases h : e.1 = (s, k)
    · have hdrop : Config.unset (e :: rest) s k = Config.unset rest s k := by
        simp [Config.unset, List.filter_cons, h]
      rw [hdrop, ih]
      by_cases h2 : (s, k) = (s', k')
      · simp [h2]
      · rw [if_neg h2, if_neg h2]
        have he : e.1 ≠ (s', k') := by rw [h]; exact h2
        simp [Config.get, he]
    · have hkeep : Config.unset (e :: rest) s k = e :: Config.unset rest s k := by
        simp [Config.unset, List.filter_cons, h]
      rw [hkeep]
      by_cases h3 : e.1 = (s', k')
      · have h2 : (s, k) ≠ (s', k') := by
          intro hcon; exact h (by rw [hcon]; exact h3)
        rw [if_neg h2]
        simp [Config.get, h3]
      · simp [Config.get, h3, ih]

theorem Config.get_restoreEntry (c : Config) (e : GuardEntry) (s' k' : String) :
    Config.get (Config.restoreEntry c e) s' k' =
      if e.1 = (s', k') then e.2 else Config.get c s' k' := by
  rcases e with ⟨⟨s, k⟩, p⟩
  cases p <;> simp [Config.restoreEntry, Config.get_set, Config.get_unset]

/-- Applying an overlay and then releasing its guard leaves every path of
the store reading exactly as before the overlay. -/
theorem Config.get_release_applyOverlay (ds : List Directive) :
    ∀ (c : Config) (s' k' : String),
      Config.get
        (Config.release (Config.applyOverlay c ds).1 (Config.applyOverlay c ds).2)
        s' k' = Config.get c s' k' := by
  induction ds with
  | nil => intro c s' k'; simp [Config.applyOverlay, Config.release]
  | cons d ds ih =>
    intro c s' k'
    simp only [Config.applyOverlay, Config.release, Config.get_restoreEntry]
    rw [ih, Config.get_set]
    by_cases h : (d.1, d.2.1) = (s', k')
    · obtain ⟨h1, h2⟩ := Prod.mk.injEq .. ▸ h
      simp [h, h1, h2]
    · simp [h]

theorem partitionCharList_some (sep : Char) :
    ∀ (xs a b : List Char), partitionCharList xs sep = some (a, b) →
      xs = a ++ sep :: b ∧ sep ∉ a := by
  intro xs
  induction xs with
  | nil => intro a b h; simp [partitionCharList] at h
  | cons x xs ih =>
    intro a b h
    by_cases hx : x = sep
    · simp [partitionCharList, hx] at h
      obtain ⟨ha, hb⟩ := h
      subst ha; subst hb; subst hx
      simp
    · simp only [partitionCharList, if_neg hx] at h
      cases hrec : partitionCharList xs sep with
      | none => rw [hrec] at h; simp at h
      | some p =>
        rw [hrec] at h
        obtain ⟨a', b'⟩ := p
        simp at h
        obtain ⟨ha, hb⟩ := h
        obtain ⟨hxs, hni⟩ := ih a' b' hrec
        subst ha; subst hb
        constructor
        · simp [hxs]
        · intro hmem
          rcases List.mem_cons.mp hmem with h1 | h1
          · exact hx h1.symm
          · exact hni h1

theorem partitionCharList_none (sep : Char) :
    ∀ (xs : List Char), partitionCharList xs sep = none ↔ sep ∉ xs := by
  intro xs
  induction xs with
  | nil => simp [partitionCharList]
  | cons x xs ih =>
    by_cases hx : x = sep
    · simp [partitionCharList, hx]
    · simp only [partitionCharList, if_neg hx]
      cases hrec : partitionCharList xs sep with
      | none =>
        simp only [hrec]
        have := ih.mp hrec
        simp [this, hx]
        intro hcon; exact hx hcon.symm
      | some p =>
        obtain ⟨a, b⟩ := p
        simp only [hrec]
        constructor
        · intro h; simp at h
        · intro h
          have : sep ∉ xs := fun hin => h (List.mem_cons_of_mem _ hin)
          rw [← ih] at this
          rw [this] at hrec
          simp at hrec

theorem rpartitionCharList_some (xs : List Char) (sep : Char) (a b : List Char)
    (h : rpartitionCharList xs sep = some (a, b)) :
    xs = a ++ sep :: b ∧ sep ∉ b := by
  unfold rpartitionCharList at h
  cases hrec : partitionCharList xs.reverse sep with
  | none => rw [hrec] at h; simp at h
  | some p =>
    rw [hrec] at h
    obtain ⟨a0, b0⟩ := p
    simp at h
    obtain ⟨ha, hb⟩ := h
    obtain ⟨hxs, hni⟩ := partitionCharList_some sep xs.reverse a0 b0 hrec
    subst ha; subst hb
    constructor
    · have := congrArg List.reverse hxs
      simpa using this
    · simpa using hni

theorem rpartitionCharList_none (xs : List Char) (sep : Char) :
    rpartitionCharList xs sep = none ↔ sep ∉ xs := by
  unfold rpartitionCharList
  cases hrec : partitionCharList xs.reverse sep with
  | none =>
    simp only [hrec]
    have := (partitionCharList_none sep xs.reverse).mp hrec
    simpa using this
  | some p =>
    obtain ⟨a, b⟩ := p
    simp only [hrec]
    constructor
    · intro h; simp at h
    · intro h
      have : sep ∉ xs.reverse := by simpa using h
      rw [← partitionCharList_none sep xs.reverse] at this
      rw [this] at hrec
      simp at hrec

/-- Blank-line branch of `parse_line` (line 68): nothing happens. -/
theorem parse_line_blank (l : String) (g lc : List Directive)
    (hd : (pyStrip l).data = []) : parse_line l g lc = ([], [], g, lc) := by
  unfold parse_line
  rw [hd]

/-- Comment branch of `parse_line` (line 68): nothing happens. -/
theorem parse_line_comment (l : String) (g lc : List Directive) (cs : List Char)
    (hd : (pyStrip l).data = '#' :: cs) : parse_line l g lc = ([], [], g, lc) := by
  simp +decide [parse_line, hd]

/-- Missing-`=` branch of `parse_line` (lines 82-84): a warning, no
directive recorded, buffers untouched. -/
theorem parse_line_noeq (l : String) (g lc : List Directive) (cs : List Char)
    (hd : (pyStrip l).data = '-' :: cs)
    (hsplit : partitionCharList (splitScope cs).2 '=' = none) :
    parse_line l g lc =
      ([], [ParseWarning.invalidPair (String.mk (splitScope cs).2)], g, lc) := by
  simp +decide [parse_line, hd, hsplit]

/-- Bad-JSON branch of `parse_line` (lines 86-90): a warning, no directive
recorded, buffers untouched. -/
theorem parse_line_badjson (l : String) (g lc : List Directive) (cs rk rv : List Char)
    (hd : (pyStrip l).data = '-' :: cs)
    (hsplit : partitionCharList (splitScope cs).2 '=' = some (rk, rv))
    (hjson : json_loads (String.mk (strip rv)) = none) :
    parse_line l g lc =
      ([], [ParseWarning.unparsableValue (String.mk rv)], g, lc) := by
  simp +decide [parse_line, hd, hsplit, hjson]

/-- Well-formed directive branch of `parse_line` (lines 92-93): the split
key/value is appended to the buffer selected by the scope. -/
theorem parse_line_directive (l : String) (g lc : List Directive)
    (cs rk rv : List Char) (v : JValue)
    (hd : (pyStrip l).data = '-' :: cs)
    (hsplit : partitionCharList (splitScope cs).2 '=' = some (rk, rv))
    (hjson : json_loads (String.mk (strip rv)) = some v) :
    parse_line l g lc =
      (if (splitScope cs).1 then ([], [], g ++ [sectionKeySplit rk v], lc)
       else ([], [], g, lc ++ [sectionKeySplit rk v])) := by
  simp +decide [parse_line, hd, hsplit, hjson]

/-- Target branch of `parse_line` (lines 95-102): emit an `ExtendedUrl`
when a directive is pending, clearing the buffers, and a plain url
otherwise. -/
theorem parse_line_target (l : String) (g lc : List Directive) (c : Char)
    (cs : List Char) (hd : (pyStrip l).data = c :: cs)
    (h1 : c ≠ '#') (h2 : c ≠ '-') :
    parse_line l g lc =
      (if g = [] ∧ lc = [] then ([UrlItem.url (pyStrip l)], [], g, lc)
       else ([UrlItem.extended ⟨pyStrip l, g, lc⟩], [], [], [])) := by
  simp [parse_line, hd, h1, h2]

/-- A line classified as silent emits no item and logs no warning. -/
theorem parse_line_silent (l : String) (g lc : List Directive)
    (h : trailingSilent l = true) :
    (parse_line l g lc).1 = [] ∧ (parse_line l g lc).2.1 = [] := by
  unfold trailingSilent at h
  cases hd : (pyStrip l).data with
  | nil => rw [parse_line_blank l g lc hd]; simp
  | cons c cs =>
    rw [hd] at h
    have hmatch : (if c = '#' then true
        else if c = '-' then directive_ok cs else false) = true := h
    by_cases hc : c = '#'
    · subst hc
      rw [parse_line_comment l g lc cs hd]
      simp
    · rw [if_neg hc] at hmatch
      by_cases hc2 : c = '-'
      · subst hc2
        rw [if_pos rfl] at hmatch
        unfold directive_ok at hmatch
        cases hsplit : partitionCharList (splitScope cs).2 '=' with
        | none => rw [hsplit] at hmatch; simp at hmatch
        | some rv =>
          obtain ⟨rawKey, rawValue⟩ := rv
          rw [hsplit] at hmatch
          have hex : (json_loads (String.mk (strip rawValue))).isSome = true := by
            simpa using hmatch
          rw [Option.isSome_iff_exists] at hex
          obtain ⟨v, hjson⟩ := hex
          rw [parse_line_directive l g lc cs rawKey rawValue v hd hsplit hjson]
          by_cases hg : (splitScope cs).1 <;> simp [hg]
      · rw [if_neg hc2] at hmatch
        simp at hmatch

/-- A suffix of silent lines produces no items and no warnings, whatever
the pending buffers are. -/
theorem parse_go_silent (ds : List String) :
    ∀ (g lc : List Directive), (∀ l ∈ ds, trailingSilent l = true) →
      parse_go ds g lc = ([], []) := by
  induction ds with
  | nil => intro g lc _; rfl
  | cons l rest ih =>
    intro g lc h
    have hl := h l (List.mem_cons_self l rest)
    have hrest : ∀ x ∈ rest, trailingSilent x = true :=
      fun x hx => h x (List.mem_cons_of_mem _ hx)
    obtain ⟨h1, h2⟩ := parse_line_silent l g lc hl
    simp only [parse_go]
    rw [ih _ _ hrest, h1, h2]
    simp

/-- The per-target step of the dispatch loop, written through the
observational helpers: the job runs against `jobConfig` and the step always
leaves the store at `postConfig`, whatever the outcome. -/
theorem runTarget_eq (run : String → Config → RunOutcome) (st : LoopState)
    (u : UrlItem) :
    runTarget run st u =
      match run u.display (jobConfig st u) with
      | RunOutcome.completed b =>
          Except.ok ⟨postConfig st u, st.retval ||| b, st.errors⟩
      | RunOutcome.terminateExtraction =>
          Except.ok ⟨postConfig st u, st.retval, st.errors⟩
      | RunOutcome.noExtractorError =>
          Except.ok ⟨postConfig st u, st.retval ||| 64,
            st.errors ++ [noExtractorMsg u.display]⟩
      | RunOutcome.fatal m => Except.error (m, postConfig st u) := by
  cases u with
  | url s =>
    cases h : run s st.conf <;>
      simp [runTarget, UrlItem.display, jobConfig, postConfig, h]
  | extended e =>
    cases h : run e.value (jobConfig st (UrlItem.extended e)) <;>
      simp_all [runTarget, UrlItem.display, jobConfig, postConfig]

/-- Bits already present in the aggregate are preserved by one step. -/
theorem runTarget_retval_mono (run : String → Config → RunOutcome)
    (st : LoopState) (u : UrlItem) (st2 : LoopState)
    (h : runTarget run st u = Except.ok st2) :
    st.retval ||| st2.retval = st2.retval := by
  rw [runTarget_eq] at h
  cases hr : run u.display (jobConfig st u) <;> rw [hr] at h <;>
    simp at h <;> rw [← h] <;> simp only []
  · rw [← Nat.or_assoc, Nat.or_self]
  · rw [Nat.or_self]
  · rw [← Nat.or_assoc, Nat.or_self]

/-- Bits already present in the aggregate are preserved by the loop. -/
theorem dispatchLoop_retval_mono (run : String → Config → RunOutcome) :
    ∀ (urls : List UrlItem) (st st' : LoopState),
      dispatchLoop run st urls = Except.ok st' →
      st.retval ||| st'.retval = st'.retval := by
  intro urls
  induction urls with
  | nil =>
    intro st st' h
    simp [dispatchLoop] at h
    rw [← h, Nat.or_self]
  | cons u us ih =>
    intro st st' h
    simp only [dispatchLoop] at h
    cases hstep : runTarget run st u with
    | error e => rw [hstep] at h; simp at h
    | ok st2 =>
      rw [hstep] at h
      have h1 := runTarget_retval_mono run st u st2 hstep
      have h2 := ih st2 st' h
      calc st.retval ||| st'.retval
          = st.retval ||| (st2.retval ||| st'.retval) := by rw [h2]
        _ = (st.retval ||| st2.retval) ||| st'.retval := by rw [Nat.or_assoc]
        _ = st2.retval ||| st'.retval := by rw [h1]
        _ = st'.retval := h2

/-- The progress wrapper yields exactly the underlying items. -/
theorem progress_go_map_snd (fmt : String) (total : Nat) :
    ∀ (cur : Nat) (us : List String),
      (progress_go fmt total cur us).map Prod.snd = us := by
  intro cur us
  induction us generalizing cur with
  | nil => rfl
  | cons u us ih => simp [progress_go, ih]

/-- The i-th element of the progress wrapper: the rendered line for the
1-based position `cur + i` paired with the unchanged item. -/
theorem progress_go_get? (fmt : String) (total : Nat) :
    ∀ (us : List String) (cur i : Nat),
      (progress_go fmt total cur us).get? i =
        (us.get? i).map (fun u => (format_map fmt (cur + i) total u, u)) := by
  intro us
  induction us with
  | nil => intro cur i; simp [progress_go]
  | cons u us ih =>
    intro cur i
    cases i with
    | zero => simp [progress_go]
    | succ j =>
      simp only [progress_go, List.get?]
      rw [ih (cur + 1) j]
      have : cur + 1 + j = cur + (j + 1) := by omega
      rw [this]

/-! Claims -/

/-- C1: for every `ExtendedUrl` processed by the dispatcher, when the
scoped overlay over its local directives is released — including when the
job outcome is a fatal error propagating out of the scoped block — every
(section, key) path reads exactly as it did before the overlay was applied
(a previously absent path reads as absent again, i.e. it was deleted
rather than set to an empty value), and this restored store is the store
in effect at the moment the per-target step returns or its error leaves. -/
theorem c1_overlay_restoration (run : String → Config → RunOutcome)
    (st : LoopState) (e : ExtendedUrl) :
    (∀ st', runTarget run st (UrlItem.extended e) = Except.ok st' →
      ∀ s k, Config.get st'.conf s k =
        Config.get (Config.setAll st.conf e.gconfig) s k) ∧
    (∀ m c, runTarget run st (UrlItem.extended e) = Except.error (m, c) →
      ∀ s k, Config.get c s k =
        Config.get (Config.setAll st.conf e.gconfig) s k) := by
  have hpost : ∀ s k, Config.get (postConfig st (UrlItem.extended e)) s k =
      Config.get (Config.setAll st.conf e.gconfig) s k := by
    intro s k
    simpa [postConfig] using
      Config.get_release_applyOverlay e.lconfig (Config.setAll st.conf e.gconfig) s k
  constructor
  · intro st' hok s k
    rw [runTarget_eq] at hok
    cases hr : run (UrlItem.extended e).display (jobConfig st (UrlItem.extended e)) <;>
      rw [hr] at hok
    case completed b =>
      injection hok with h2
      rw [← h2]
      exact hpost s k
    case terminateExtraction =>
      injection hok with h2
      rw [← h2]
      exact hpost s k
    case noExtractorError =>
      injection hok with h2
      rw [← h2]
      exact hpost s k
    case fatal m => exact Except.noConfusion hok
  · intro m c herr s k
    rw [runTarget_eq] at herr
    cases hr : run (UrlItem.extended e).display (jobConfig st (UrlItem.extended e)) <;>
      rw [hr] at herr
    case completed b => exact Except.noConfusion herr
    case terminateExtraction => exact Except.noConfusion herr
    case noExtractorError => exact Except.noConfusion herr
    case fatal m2 =>
      injection herr with h2
      rw [Prod.mk.injEq] at h2
      obtain ⟨hm, hc⟩ := h2
      rw [← hc]
      exact hpost s k

theorem c1_overlay_restoration_witness :
    Config.get [(("a", "b"), JValue.bool false), (("a", "b"), JValue.num 1),
      (("a", "b"), JValue.bool false)] "a" "b" = some (JValue.bool false) := by
  have h := (c1_overlay_restoration runFatalBoom
      ⟨[(("a", "b"), JValue.bool false)], 0, []⟩
      ⟨"u", [], [("a", "b", JValue.num 1)]⟩).2 "boom"
      [(("a", "b"), JValue.bool false), (("a", "b"), JValue.num 1),
        (("a", "b"), JValue.bool false)]
      (by decide) "a" "b"
  rw [h]
  decide

/-- C2: in the dispatch loop, a `TerminateExtraction` outcome from
`job.run()` is caught, contributes no status bits, logs no error, and the
loop continues with the next target; a `NoExtractorError` outcome is
caught, logs an error naming the target, ORs bit 64 into the aggregate,
and the loop continues; any other (fatal) error is not caught and
terminates the whole batch. -/
theorem c2_failure_classes (run : String → Config → RunOutcome)
    (st : LoopState) (u : UrlItem) (us : List UrlItem) :
    (run u.display (jobConfig st u) = RunOutcome.terminateExtraction →
      dispatchLoop run st (u :: us) =
        dispatchLoop run ⟨postConfig st u, st.retval, st.errors⟩ us) ∧
    (run u.display (jobConfig st u) = RunOutcome.noExtractorError →
      dispatchLoop run st (u :: us) =
        dispatchLoop run ⟨postConfig st u, st.retval ||| 64,
          st.errors ++ [noExtractorMsg u.display]⟩ us) ∧
    (∀ m, run u.display (jobConfig st u) = RunOutcome.fatal m →
      dispatchLoop run st (u :: us) = Except.error (m, postConfig st u)) := by
  refine ⟨fun h => ?_, fun h => ?_, fun m h => ?_⟩ <;>
    simp only [dispatchLoop, runTarget_eq, h]

theorem c2_failure_classes_witness :
    dispatchLoop runAllTerminate ⟨[], 0, []⟩ [UrlItem.url "a", UrlItem.url "b"] =
      dispatchLoop runAllTerminate ⟨[], 0, []⟩ [UrlItem.url "b"] := by
  have h := (c2_failure_classes runAllTerminate ⟨[], 0, []⟩
      (UrlItem.url "a") [UrlItem.url "b"]).1 rfl
  exact h

/-- C3: the exit aggregate starts at 0, is combined across targets by
bitwise OR of each `run()` result, and is never reset mid-run (bits once
present are present in the final aggregate); three targets whose `run()`
returns 0, 64, 0 in order yield the aggregate 64. -/
theorem c3_aggregate (run : String → Config → RunOutcome) :
    (∀ (st : LoopState) (u : UrlItem) (b : Nat),
      run u.display (jobConfig st u) = RunOutcome.completed b →
      runTarget run st u =
        Except.ok ⟨postConfig st u, st.retval ||| b, st.errors⟩) ∧
    (∀ (urls : List UrlItem) (st st' : LoopState),
      dispatchLoop run st urls = Except.ok st' →
      st.retval ||| st'.retval = st'.retval) ∧
    main_loop runBits64OnB []
        [UrlItem.url "a", UrlItem.url "b", UrlItem.url "c"] =
      Except.ok ⟨[], 64, []⟩ := by
  refine ⟨fun st u b h => ?_, dispatchLoop_retval_mono run, by decide⟩
  rw [runTarget_eq, h]

theorem c3_aggregate_witness :
    runTarget runBits64OnB ⟨[], 3, []⟩ (UrlItem.url "b") =
      Except.ok ⟨[], 67, []⟩ := by
  have h := (c3_aggregate runBits64OnB).1 ⟨[], 3, []⟩ (UrlItem.url "b") 64 rfl
  have h2 : (3 ||| 64 : Nat) = 67 := by decide
  rw [h2] at h
  exact h

/-- C10: for every `ExtendedUrl`, the permanent global-directive writes
(`config.set` for each entry of `gconfig`, in order) are already in the
store against which the job runs, and they are never rolled back: when the
job raises `TerminateExtraction` or `NoExtractorError`, the step succeeds
with the store at the released overlay, which reads exactly as the store
did after the global writes — the global writes remain visible to
subsequent targets, only the local overlay is undone. -/
theorem c10_globals_persist (run : String → Config → RunOutcome)
    (st : LoopState) (e : ExtendedUrl) :
    (run e.value
        (Config.applyOverlay (Config.setAll st.conf e.gconfig) e.lconfig).1 =
        RunOutcome.terminateExtraction →
      runTarget run st (UrlItem.extended e) =
        Except.ok ⟨Config.release
            (Config.applyOverlay (Config.setAll st.conf e.gconfig) e.lconfig).1
            (Config.applyOverlay (Config.setAll st.conf e.gconfig) e.lconfig).2,
          st.retval, st.errors⟩) ∧
    (run e.value
        (Config.applyOverlay (Config.setAll st.conf e.gconfig) e.lconfig).1 =
        RunOutcome.noExtractorError →
      runTarget run st (UrlItem.extended e) =
        Except.ok ⟨Config.release
            (Config.applyOverlay (Config.setAll st.conf e.gconfig) e.lconfig).1
            (Config.applyOverlay (Config.setAll st.conf e.gconfig) e.lconfig).2,
          st.retval ||| 64, st.errors ++ [noExtractorMsg e.value]⟩) ∧
    (∀ s k, Config.get (Config.release
          (Config.applyOverlay (Config.setAll st.conf e.gconfig) e.lconfig).1
          (Config.applyOverlay (Config.setAll st.conf e.gconfig) e.lconfig).2)
        s k = Config.get (Config.setAll st.conf e.gconfig) s k) := by
  refine ⟨fun h => ?_, fun h => ?_,
    fun s k => Config.get_release_applyOverlay e.lconfig
      (Config.setAll st.conf e.gconfig) s k⟩ <;>
    simp [runTarget, h]

theorem c10_globals_persist_witness :
    runTarget runAllNoExtractor ⟨[], 0, []⟩
      (UrlItem.extended ⟨"u", [("g", "h", JValue.num 2)], []⟩) =
    Except.ok ⟨[(("g", "h"), JValue.num 2)], 64, [noExtractorMsg "u"]⟩ := by
  have h := (c10_globals_persist runAllNoExtractor ⟨[], 0, []⟩
      ⟨"u", [("g", "h", JValue.num 2)], []⟩).2.1 rfl
  simpa using h

/-- C4: the parser emits an `ExtendedUrl` for a target line exactly when at
least one directive (global or local) has accumulated since the last
emitted target, carrying the accumulated buffers in order, and emission
resets both buffers to empty (the rest of the input is parsed as from a
fresh start); a target line reached with both buffers empty is emitted as
a plain url equal to its trimmed literal string. -/
theorem c4_target_emission (l : String) (rest : List String)
    (gconf lconf : List Directive) (c : Char) (cs : List Char)
    (hd : (pyStrip l).data = c :: cs) (h1 : c ≠ '#') (h2 : c ≠ '-') :
    (gconf = [] ∧ lconf = [] →
      parse_go (l :: rest) gconf lconf =
        (UrlItem.url (pyStrip l) :: (parse_inputfile rest).1,
         (parse_inputfile rest).2)) ∧
    (¬(gconf = [] ∧ lconf = []) →
      parse_go (l :: rest) gconf lconf =
        (UrlItem.extended ⟨pyStrip l, gconf, lconf⟩ :: (parse_inputfile rest).1,
         (parse_inputfile rest).2)) := by
  constructor
  · intro hempty
    obtain ⟨hg, hl⟩ := hempty
    subst hg
    subst hl
    simp only [parse_go, parse_line_target l [] [] c cs hd h1 h2]
    simp [parse_inputfile]
  · intro hne
    simp only [parse_go, parse_line_target l gconf lconf c cs hd h1 h2, if_neg hne]
    simp [parse_inputfile]

theorem c4_target_emission_witness :
    parse_go ["https://a"] [("s", "k", JValue.num 1)] [] =
      ([UrlItem.extended ⟨"https://a", [("s", "k", JValue.num 1)], []⟩], []) := by
  have h := (c4_target_emission "https://a" [] [("s", "k", JValue.num 1)] []
      'h' "ttps://a".data (by decide) (by decide) (by decide)).2 (by simp)
  simpa using h

/-- C5: for every directive line, after the scope prefix is stripped the
remainder is split on the FIRST `=` into raw key and raw value (the raw
key contains no `=`), the stripped raw value is parsed as JSON, and the
stripped raw key is split on its LAST `:` into section and key (the key
part contains no further `:`); with no colon present the section is
`"__global__"` and the key is the stripped raw key. -/
theorem c5_directive_parsing (l : String) (rest : List String)
    (gconf lconf : List Directive) (cs rk rv : List Char) (v : JValue)
    (hd : (pyStrip l).data = '-' :: cs)
    (hsplit : partitionCharList (splitScope cs).2 '=' = some (rk, rv))
    (hjson : json_loads (String.mk (strip rv)) = some v) :
    ((splitScope cs).2 = rk ++ '=' :: rv ∧ '=' ∉ rk) ∧
    (parse_go (l :: rest) gconf lconf =
      (if (splitScope cs).1 then
        parse_go rest (gconf ++ [sectionKeySplit rk v]) lconf
       else parse_go rest gconf (lconf ++ [sectionKeySplit rk v]))) ∧
    (∀ sec k, rpartitionCharList (strip rk) ':' = some (sec, k) →
      sectionKeySplit rk v = (String.mk sec, String.mk k, v) ∧
      strip rk = sec ++ ':' :: k ∧ ':' ∉ k) ∧
    (rpartitionCharList (strip rk) ':' = none →
      sectionKeySplit rk v = ("__global__", String.mk (strip rk), v) ∧
      ':' ∉ strip rk) := by
  refine ⟨partitionCharList_some '=' _ rk rv hsplit, ?_, ?_, ?_⟩
  · simp only [parse_go, parse_line_directive l gconf lconf cs rk rv v hd hsplit hjson]
    by_cases hg : (splitScope cs).1 <;> simp [hg]
  · intro sec k hr
    refine ⟨?_, rpartitionCharList_some (strip rk) ':' sec k hr⟩
    unfold sectionKeySplit
    rw [hr]
  · intro hr
    refine ⟨?_, (rpartitionCharList_none (strip rk) ':').mp hr⟩
    unfold sectionKeySplit
    rw [hr]

theorem c5_directive_parsing_witness :
    parse_go ["-plugin:opt=1", "u"] [] [] =
      parse_go ["u"] [] [("plugin", "opt", JValue.num 1)] := by
  have h := (c5_directive_parsing "-plugin:opt=1" ["u"] [] []
      "plugin:opt=1".data "plugin:opt".data "1".data (JValue.num 1)
      (by decide) (by decide) (by decide)).2.1
  have e1 : sectionKeySplit "plugin:opt".data (JValue.num 1) =
      ("plugin", "opt", JValue.num 1) := by decide
  have e2 : (splitScope "plugin:opt=1".data).1 = false := by decide
  rw [e1, e2] at h
  simpa using h

/-- C6: a directive line lacking an `=` separator, or whose value fails to
parse as JSON, logs one warning, records zero directives (the pending
buffers are unchanged), and parsing continues with the rest of the input;
the parser is a total function and never fails on malformed syntax. -/
theorem c6_malformed_skipped (l : String) (rest : List String)
    (gconf lconf : List Directive) (cs : List Char)
    (hd : (pyStrip l).data = '-' :: cs) :
    ('=' ∉ (splitScope cs).2 →
      parse_go (l :: rest) gconf lconf =
        ((parse_go rest gconf lconf).1,
         ParseWarning.invalidPair (String.mk (splitScope cs).2) ::
           (parse_go rest gconf lconf).2)) ∧
    (∀ rk rv, partitionCharList (splitScope cs).2 '=' = some (rk, rv) →
      json_loads (String.mk (strip rv)) = none →
      parse_go (l :: rest) gconf lconf =
        ((parse_go rest gconf lconf).1,
         ParseWarning.unparsableValue (String.mk rv) ::
           (parse_go rest gconf lconf).2)) := by
  constructor
  · intro hno
    have hsplit : partitionCharList (splitScope cs).2 '=' = none :=
      (partitionCharList_none '=' _).mpr hno
    simp only [parse_go, parse_line_noeq l gconf lconf cs hd hsplit]
    simp
  · intro rk rv hsplit hjson
    simp only [parse_go, parse_line_badjson l gconf lconf cs rk rv hd hsplit hjson]
    simp

theorem c6_malformed_skipped_witness :
    parse_go ["-badline", "https://u"] [] [] =
      ([UrlItem.url "https://u"], [ParseWarning.invalidPair "badline"]) := by
  have h := (c6_malformed_skipped "-badline" ["https://u"] [] []
      "badline".data (by decide)).1 (by decide)
  rw [h]
  decide

/-- C7: when the final lines of an input are directives (or blanks or
comments) with no subsequent target line, the parsed output simply ends:
the trailing pending directives are dropped silently — never emitted,
never applied to any target — and they produce no warning. -/
theorem c7_trailing_dropped (lines ds : List String)
    (h : ∀ l ∈ ds, trailingSilent l = true) :
    parse_inputfile (lines ++ ds) = parse_inputfile lines := by
  unfold parse_inputfile
  suffices hgen : ∀ g lc, parse_go (lines ++ ds) g lc = parse_go lines g lc by
    exact hgen [] []
  induction lines with
  | nil =>
    intro g lc
    simp only [List.nil_append]
    rw [parse_go_silent ds g lc h]
    rfl
  | cons l ls ih =>
    intro g lc
    simp only [List.cons_append, parse_go, List.append_eq]
    rw [ih]

theorem c7_trailing_dropped_witness :
    parse_inputfile ["https://u", "-skip=true"] = parse_inputfile ["https://u"] := by
  exact c7_trailing_dropped ["https://u"] ["-skip=true"] (by decide)

/-- C8: the progress wrapper yields exactly the original items, in the
original order and count; and for each position i it writes one line
rendered from the template with the 1-based index i+1, the fixed total
(the length of the materialised list, taken once at wrap time), and the
item itself. -/
theorem c8_progress_passthrough (urls : List String) (pformat : Option String) :
    ((progress urls pformat).map Prod.snd = urls) ∧
    ((progress urls pformat).length = urls.length) ∧
    (∀ i u, urls.get? i = some u →
      (progress urls pformat).get? i =
        some (format_map (progress_pformat pformat) (i + 1) urls.length u, u)) := by
  refine ⟨progress_go_map_snd _ _ 1 urls, ?_, ?_⟩
  · unfold progress
    conv_rhs => rw [← progress_go_map_snd (progress_pformat pformat) urls.length 1 urls]
    exact (List.length_map _ _).symm
  · intro i u hu
    unfold progress
    rw [progress_go_get? (progress_pformat pformat) urls.length urls 1 i]
    have hcomm : 1 + i = i + 1 := Nat.add_comm 1 i
    rw [hcomm, hu]
    rfl

theorem c8_progress_passthrough_witness :
    (progress ["a", "b"] none).get? 0 =
      some (format_map (progress_pformat none) 1 2 "a", "a") := by
  have h := (c8_progress_passthrough ["a", "b"] none).2.2 0 "a" rfl
  exact h

/-- C9: the parser validates neither section nor key for emptiness: a
directive line whose key part starts with `:` yields the empty string as
section — distinct from the `"__global__"` default — and a directive line
with an empty key part is accepted without warning as a global directive
with section `"__global__"` and empty key. -/
theorem c9_no_validation :
    parse_line "-:opt=1" [] [] = ([], [], [], [("", "opt", JValue.num 1)]) ∧
    ("" : String) ≠ "__global__" ∧
    parse_line "-G=5" [] [] = ([], [], [("__global__", "", JValue.num 5)], []) := by
  exact ⟨by decide, by decide, by decide⟩

end Gallerydl
